import Mathlib

set_option maxRecDepth 4000

/-!
Shallow embedding of the translation-event moving-average engine
(src/core/event_processor.py) together with proofs about the claims of the
specification.

Modelling conventions:
  - A Python `datetime` is modelled as a minute index (minutes since an
    arbitrary epoch, an `Int`), a second component and a microsecond
    component.  `datetime` arithmetic with `timedelta` is exact linear time
    (no leap seconds, no time zones), so this representation is
    order- and difference-faithful.
  - All minute values stored in the chronology are minute-aligned datetimes
    (second = 0, microsecond = 0); they are therefore represented by their
    minute index alone, and Python `datetime` equality / subtraction on them
    becomes equality / subtraction of minute indices.
  - Python `float` arithmetic on averages is modelled with exact rationals
    (`Rat`).
  - Fallible operations (ZeroDivisionError in the average, IndexError on
    `chronology[0]`) are modelled with `Option`: `none` means the Python code
    raises and the engine dies without emitting anything further.
  - `queue.put` emissions are modelled by returning the list of emitted
    records, in emission order.
-/

namespace EventProcessor

/-- Model of a Python `datetime`: the minute part (as minutes since an
arbitrary epoch), the seconds within the minute, and the microseconds. -/
structure PyDateTime where
  minuteIdx : Int
  second : Nat
  microsecond : Nat
deriving DecidableEq, Repr

/-- An incoming translation event, as extracted by
`_get_parameters_from_raw_translation_event`: its timestamp and its
duration / delivery time (a non-negative integer, in ms). -/
structure Event where
  timestamp : PyDateTime
  delivery_time : Nat
deriving DecidableEq, Repr

/-- One chronology entry, mirroring the dict
`{date, number_of_events, total_delivery_time}` of the source.  The stored
`date` is always a minute-aligned datetime, kept here as its minute index. -/
structure MinuteInfo where
  date : Int
  number_of_events : Nat
  total_delivery_time : Nat
deriving DecidableEq, Repr

/-- One emitted piece of information, mirroring the dict
`{date, average_delivery_time}` assembled by `_notify_new_information`. -/
structure OutputInfo where
  date : Int
  average_delivery_time : Rat
deriving DecidableEq, Repr

/-- Embeds `_get_next_minute_of_datetime`: if the datetime is already a
rounded minute it is returned as is, otherwise the datetime is truncated to
its minute and one minute is added. -/
def get_next_minute_of_datetime (datetime_object : PyDateTime) : PyDateTime :=
  if datetime_object.second = 0 ∧ datetime_object.microsecond = 0 then
    datetime_object
  else
    { minuteIdx := datetime_object.minuteIdx + 1, second := 0, microsecond := 0 }

/-- Python's built-in `round` to the nearest integer with ties going to the
even integer (banker's rounding), on exact rationals. -/
def py_round (a : Rat) : Int :=
  if a - a.floor < 1/2 then a.floor
  else if a - a.floor > 1/2 then a.floor + 1
  else if a.floor % 2 = 0 then a.floor else a.floor + 1

/-- Python's built-in `round(x, 3)`: rounding to 3 decimal digits, ties to
even, on exact rationals. -/
def py_round_3 (a : Rat) : Rat :=
  ((py_round (a * 1000) : Int) : Rat) / 1000

/-- Python's `int()` conversion on a number: truncation toward zero. -/
def py_int (a : Rat) : Int :=
  if 0 ≤ a then a.floor else -(-a).floor

/-- Embeds `_is_integer`: `round(number) == number`. -/
def is_integer (number : Rat) : Bool :=
  decide (((py_round number : Int) : Rat) = number)

/-- Embeds the numeric part of `_notify_new_information`: an integer average
is emitted as `int(x)`, any other average is emitted as `round(x, 3)`. -/
def notify_new_information (datetime_object : Int) (average_delivery_time : Rat) :
    OutputInfo :=
  if is_integer average_delivery_time then
    { date := datetime_object, average_delivery_time := ((py_int average_delivery_time : Int) : Rat) }
  else
    { date := datetime_object, average_delivery_time := py_round_3 average_delivery_time }

/-- Embeds the inner `_get_average_delivery_time`: `delivery_time /
number_of_events`, which raises ZeroDivisionError (modelled as `none`) when
`number_of_events` is zero. -/
def get_average_delivery_time (number_of_events : Nat) (delivery_time : Nat) :
    Option Rat :=
  if number_of_events = 0 then none
  else some ((delivery_time : Rat) / (number_of_events : Rat))

/-- Embeds `_get_average_delivery_time_from_chronology`.  The Python loop
runs `i` over `range(window_size)`, early-returning once `i` reaches the
chronology length; its two accumulators are therefore exactly the sums over
the first `min(window_size, len(chronology))` entries, i.e. over
`chronology.take window_size`. -/
def get_average_delivery_time_from_chronology
    (chronology : List MinuteInfo) (window_size : Nat) : Option Rat :=
  if chronology = [] then some 0
  else
    get_average_delivery_time
      (((chronology.take window_size).map MinuteInfo.number_of_events).sum)
      (((chronology.take window_size).map MinuteInfo.total_delivery_time).sum)

/-- Embeds the trimming step duplicated after each insertion in the source:
`if len(current_chronology) > window_size: current_chronology.pop(-1)`. -/
def trim_chronology (window_size : Nat) (chronology : List MinuteInfo) :
    List MinuteInfo :=
  if chronology.length > window_size then chronology.dropLast else chronology

/-- Embeds `on_first_event`: inserts the first minute bucket at the head of
the (empty) chronology and immediately emits the full minute before it with
average 0. -/
def on_first_event (current_chronology : List MinuteInfo) (next_minute : Int)
    (delivery_time : Nat) : List MinuteInfo × List OutputInfo :=
  ({ date := next_minute, number_of_events := 1, total_delivery_time := delivery_time }
      :: current_chronology,
    [notify_new_information (next_minute - 1) 0])

/-- Embeds `on_event_for_same_minute`: the head entry is updated in place;
nothing is emitted because the minute is still open. -/
def on_event_for_same_minute (current_chronology : List MinuteInfo)
    (delivery_time : Nat) : List MinuteInfo :=
  match current_chronology with
  | [] => []
  | head :: rest =>
    { head with
      number_of_events := head.number_of_events + 1,
      total_delivery_time := head.total_delivery_time + delivery_time } :: rest

/-- Embeds `on_event_for_new_consecutive_minute`: the head minute is closed,
its average is computed and emitted, and the incoming event opens a new head
bucket, trimming the tail when the cap is exceeded. -/
def on_event_for_new_consecutive_minute (current_chronology : List MinuteInfo)
    (next_minute : Int) (delivery_time : Nat) (window_size : Nat) :
    Option (List MinuteInfo × List OutputInfo) :=
  match current_chronology with
  | [] => none
  | current :: _ =>
    match get_average_delivery_time_from_chronology current_chronology window_size with
    | none => none
    | some average_delivery_time =>
      some
        (trim_chronology window_size
          ({ date := next_minute, number_of_events := 1, total_delivery_time := delivery_time }
            :: current_chronology),
          [notify_new_information current.date average_delivery_time])

/-- Embeds the body of the `for i in range(1, minute_difference)` loop of
`on_event_for_new_non_consecutive_minute`: `remaining` iterations are
performed, `i` being the current loop index.  Each iteration inserts an empty
bucket for `current_minute + i` at the head, computes and emits its average
(raising, hence `none`, when the window holds no event), then trims. -/
def insert_empty_minutes (window_size : Nat) (current_minute : Int) (i : Nat)
    (remaining : Nat) (chronology : List MinuteInfo) :
    Option (List MinuteInfo × List OutputInfo) :=
  match remaining with
  | 0 => some (chronology, [])
  | r + 1 =>
    let new_minute : Int := current_minute + i
    let inserted : List MinuteInfo :=
      { date := new_minute, number_of_events := 0, total_delivery_time := 0 } :: chronology
    match get_average_delivery_time_from_chronology inserted window_size with
    | none => none
    | some average_delivery_time =>
      match insert_empty_minutes window_size current_minute (i + 1) r
          (trim_chronology window_size inserted) with
      | none => none
      | some (final_chronology, outputs) =>
        some (final_chronology,
          notify_new_information new_minute average_delivery_time :: outputs)

/-- Embeds `on_event_for_new_non_consecutive_minute`.  The source computes
the number of empty minutes as `(next_minute - current_minute).seconds // 60`:
a Python `timedelta` stores `seconds` reduced modulo one day (86400 seconds),
so for a difference of `d` minutes this evaluates to `(d * 60 % 86400) / 60`.
The loop `range(1, minute_difference)` performs `minute_difference - 1`
iterations (none when the subtraction underflows). -/
def on_event_for_new_non_consecutive_minute (current_chronology : List MinuteInfo)
    (next_minute : Int) (delivery_time : Nat) (window_size : Nat) :
    Option (List MinuteInfo × List OutputInfo) :=
  match current_chronology with
  | [] => none
  | current :: _ =>
    match get_average_delivery_time_from_chronology current_chronology window_size with
    | none => none
    | some average_delivery_time =>
      let minute_difference : Nat := (next_minute - current.date).toNat * 60 % 86400 / 60
      match insert_empty_minutes window_size current.date 1 (minute_difference - 1)
          current_chronology with
      | none => none
      | some (filled_chronology, empty_minute_outputs) =>
        some
          (trim_chronology window_size
            ({ date := next_minute, number_of_events := 1, total_delivery_time := delivery_time }
              :: filled_chronology),
            notify_new_information current.date average_delivery_time
              :: empty_minute_outputs)

/-- Embeds the dispatch on one incoming event inside the processing loop of
`event_processor`: the four scenarios, tried in source order; an event whose
rounded minute precedes the current head matches no branch and is silently
ignored. -/
def process_event (window_size : Nat) (chronology : List MinuteInfo) (e : Event) :
    Option (List MinuteInfo × List OutputInfo) :=
  let timestamp_next_minute : Int := (get_next_minute_of_datetime e.timestamp).minuteIdx
  match chronology with
  | [] => some (on_first_event chronology timestamp_next_minute e.delivery_time)
  | current :: _ =>
    if timestamp_next_minute = current.date then
      some (on_event_for_same_minute chronology e.delivery_time, [])
    else if timestamp_next_minute - current.date = 1 then
      on_event_for_new_consecutive_minute chronology timestamp_next_minute
        e.delivery_time window_size
    else if timestamp_next_minute - current.date > 1 then
      on_event_for_new_non_consecutive_minute chronology timestamp_next_minute
        e.delivery_time window_size
    else
      some (chronology, [])

/-- Embeds the processing loop of `event_processor` run from a given
chronology state over the remaining input events (the end-of-file marker is
the end of the list).  Results are the concatenation of all emissions. -/
def process_events (window_size : Nat) (chronology : List MinuteInfo) :
    List Event → Option (List MinuteInfo × List OutputInfo)
  | [] => some (chronology, [])
  | e :: es =>
    match process_event window_size chronology e with
    | none => none
    | some (chronology', outputs) =>
      match process_events window_size chronology' es with
      | none => none
      | some (final_chronology, outputs') =>
        some (final_chronology, outputs ++ outputs')

/-- Embeds the whole of `event_processor`: the processing loop over the input
events followed by the final flush.  The flush first computes the final
average (which is 0 for an empty chronology), then evaluates `chronology[0]`:
on an empty chronology this raises IndexError, modelled as `none`.  A `some`
outcome means the engine emitted exactly these records, in this order, and
then forwarded the end-of-stream marker. -/
def event_processor (window_size : Nat) (events : List Event) :
    Option (List OutputInfo) :=
  match process_events window_size [] events with
  | none => none
  | some (chronology, outputs) =>
    match get_average_delivery_time_from_chronology chronology window_size with
    | none => none
    | some final_average_delivery_time =>
      match chronology with
      | [] => none
      | current :: _ =>
        some (outputs ++
          [notify_new_information current.date final_average_delivery_time])

/-- The gap-freeness invariant claimed for the chronology: entries are ordered
most-recent-first and for any two adjacent entries the earlier one's minute is
exactly one minute before the later one's. -/
def gap_free (chronology : List MinuteInfo) : Prop :=
  chronology.Chain' (fun later earlier => earlier.date = later.date - 1)

/-- C1: the claim says that for a chronology whose first `window_size` entries
all have `number_of_events = 0`, the average computation returns 0 and the
Result for that minute is emitted with average 0, with no arithmetic fault.
The code instead raises ZeroDivisionError (modelled as `none`): here with
window size 1, the chronology reached after an event at minute 1 and the
empty minute 2, and the full run on the two events 3 minutes apart (minute
indices 0 and 3, seconds 30) that produces that state. -/
theorem c1_all_empty_window_raises_division_fault :
    get_average_delivery_time_from_chronology
      [⟨2, 0, 0⟩, ⟨1, 1, 5⟩] 1 = none ∧
    event_processor 1 [⟨⟨0, 30, 0⟩, 5⟩, ⟨⟨3, 30, 0⟩, 7⟩] = none := by
  exact ⟨rfl, rfl⟩

/-- C2: the claim says that on an input with no event at all the engine emits
no Result and forwards only the end-of-stream signal, terminating without
error.  The code instead evaluates `chronology[0]` on the empty chronology
during the final flush and dies with IndexError (modelled as `none` rather
than `some []`). -/
theorem c2_empty_stream_raises_index_error :
    event_processor 10 [] = none ∧ event_processor 10 [] ≠ some [] := by
  have h : event_processor 10 [] = none := rfl
  exact ⟨h, by rw [h]; exact fun hc => Option.noConfusion hc⟩

/-- C3: the claim says every non-empty chronologically ordered input yields
one Result per minute from the minute before the first event through the
minute of the last event, strictly increasing by one minute.  For two events
whose rounded minutes are exactly 1440 minutes (one day) apart the code
computes the number of intermediate empty minutes from `timedelta.seconds`,
which is reduced modulo one day, obtains 0, and emits only 3 Results with a
1440-minute jump instead of the claimed 1442 consecutive minutes. -/
theorem c3_day_gap_skips_minutes :
    event_processor 5 [⟨⟨0, 30, 0⟩, 5⟩, ⟨⟨1440, 30, 0⟩, 7⟩] =
      some [⟨0, 0⟩, ⟨1, 5⟩, ⟨1441, 6⟩] ∧
    ¬ List.Chain' (fun r s => s.date = r.date + 1)
        ([⟨0, 0⟩, ⟨1, 5⟩, ⟨1441, 6⟩] : List OutputInfo) := by
  constructor
  · with_unfolding_all decide
  · intro h
    exact absurd (List.chain'_cons.mp (List.chain'_cons.mp h).2).1 (by decide)

/-- C4: the claim says the chronology is gap-free after every processed
event.  With the same one-day gap as in C3 (window size 3 here), the code
inserts no intermediate empty minute and the resulting chronology holds the
minutes 1441 and 1, which are not adjacent. -/
theorem c4_day_gap_breaks_gap_freeness :
    process_events 3 [] [⟨⟨0, 30, 0⟩, 5⟩, ⟨⟨1440, 30, 0⟩, 7⟩] =
      some ([⟨1441, 1, 7⟩, ⟨1, 1, 5⟩], [⟨0, 0⟩, ⟨1, 5⟩]) ∧
    ¬ gap_free [⟨1441, 1, 7⟩, ⟨1, 1, 5⟩] := by
  constructor
  · with_unfolding_all decide
  · intro h
    exact absurd (List.chain'_cons.mp h).1 (by decide)

/-- C5: with window size 10 and the three events of the reference input
(timestamps 18:11:08.509654, 18:15:19.903159, 18:23:19.903159 — minute
indices 1091, 1095, 1103 within the day — durations 20, 31, 54) the engine
emits exactly the fourteen Results of the specification, 25.5 and 42.5 being
51/2 and 85/2. -/
theorem c5_reference_input_output :
    event_processor 10
      [⟨⟨1091, 8, 509654⟩, 20⟩, ⟨⟨1095, 19, 903159⟩, 31⟩, ⟨⟨1103, 19, 903159⟩, 54⟩] =
    some [⟨1091, 0⟩, ⟨1092, 20⟩, ⟨1093, 20⟩, ⟨1094, 20⟩, ⟨1095, 20⟩,
      ⟨1096, 51/2⟩, ⟨1097, 51/2⟩, ⟨1098, 51/2⟩, ⟨1099, 51/2⟩, ⟨1100, 51/2⟩,
      ⟨1101, 51/2⟩, ⟨1102, 31⟩, ⟨1103, 31⟩, ⟨1104, 85/2⟩] := by
  with_unfolding_all decide

/-- C6: the minute-rounding function returns its argument unchanged when the
seconds and sub-second components are zero, and otherwise returns the start
of the next minute (the truncated minute plus one); hence an event landing
exactly on a minute boundary keeps its own minute. -/
theorem c6_next_minute_rounding (t : PyDateTime) :
    (t.second = 0 ∧ t.microsecond = 0 → get_next_minute_of_datetime t = t) ∧
    (¬ (t.second = 0 ∧ t.microsecond = 0) →
      get_next_minute_of_datetime t = ⟨t.minuteIdx + 1, 0, 0⟩) := by
  constructor
  · intro h
    simp [get_next_minute_of_datetime, h]
  · intro h
    simp [get_next_minute_of_datetime, h]

/-- Witness for C6 at two concrete datetimes: one already minute-aligned and
one with a non-zero second component. -/
theorem c6_next_minute_rounding_witness :
    get_next_minute_of_datetime ⟨1091, 0, 0⟩ = ⟨1091, 0, 0⟩ ∧
    get_next_minute_of_datetime ⟨1091, 8, 509654⟩ = ⟨1092, 0, 0⟩ := by
  exact ⟨(c6_next_minute_rounding ⟨1091, 0, 0⟩).1 ⟨rfl, rfl⟩,
    (c6_next_minute_rounding ⟨1091, 8, 509654⟩).2 (by decide)⟩

/-- Batteries' computable `Rat.floor` agrees with the floor of the order
structure on `Rat`. -/
theorem rat_floor_eq_intFloor (q : Rat) : q.floor = ⌊q⌋ :=
  (Rat.floor_def' q).trans Rat.floor_def.symm

/-- Python `round` is the identity on integers. -/
theorem py_round_intCast (n : Int) : py_round ((n : Int) : Rat) = n := by
  norm_num [py_round, rat_floor_eq_intFloor]

/-- Python's `round(x) == x` test succeeds exactly on the rationals with
denominator 1. -/
theorem py_round_eq_self_iff (a : Rat) :
    ((py_round a : Int) : Rat) = a ↔ a.den = 1 := by
  constructor
  · intro h
    rw [← h]
    exact Rat.den_intCast _
  · intro h
    obtain ⟨n, hn⟩ : ∃ n : ℤ, a = (n : Rat) :=
      ⟨a.num, (Rat.coe_int_num_of_den_eq_one h).symm⟩
    subst hn
    rw [py_round_intCast]

/-- The `_is_integer` test holds exactly on the rationals with denominator 1
(the mathematically integral values). -/
theorem is_integer_eq_true_iff (a : Rat) : is_integer a = true ↔ a.den = 1 := by
  unfold is_integer
  simp only [decide_eq_true_eq]
  exact py_round_eq_self_iff a

/-- Python `int()` is the identity on integers. -/
theorem py_int_intCast (n : Int) : py_int ((n : Int) : Rat) = n := by
  unfold py_int
  by_cases h : (0 : Rat) ≤ ((n : Int) : Rat)
  · rw [if_pos h, rat_floor_eq_intFloor, Int.floor_intCast]
  · rw [if_neg h, show -((n : Int) : Rat) = ((-n : Int) : Rat) from by push_cast; ring,
      rat_floor_eq_intFloor, Int.floor_intCast, neg_neg]

/-- An integral average passes through `_notify_new_information` unchanged
(and in particular is emitted as the integer `int(x)`). -/
theorem notify_new_information_of_den_eq_one (d : Int) (a : Rat) (h : a.den = 1) :
    notify_new_information d a = ⟨d, a⟩ := by
  have hint : is_integer a = true := (is_integer_eq_true_iff a).mpr h
  obtain ⟨n, hn⟩ : ∃ n : ℤ, a = (n : Rat) :=
    ⟨a.num, (Rat.coe_int_num_of_den_eq_one h).symm⟩
  subst hn
  simp [notify_new_information, hint, py_int_intCast]

/-- Banker's rounding moves a rational by at most one half. -/
theorem abs_py_round_sub_le_half (a : Rat) :
    |((py_round a : Int) : Rat) - a| ≤ 1/2 := by
  have h0 : ((⌊a⌋ : Int) : Rat) ≤ a := Int.floor_le a
  have h1 : a < (⌊a⌋ : Rat) + 1 := Int.lt_floor_add_one a
  have hcast : ((⌊a⌋ + 1 : Int) : Rat) = (⌊a⌋ : Rat) + 1 := by push_cast; ring
  unfold py_round
  rw [rat_floor_eq_intFloor]
  by_cases hlt : a - (⌊a⌋ : Rat) < 1/2
  · rw [if_pos hlt, abs_sub_comm, abs_of_nonneg (by linarith)]
    linarith
  · rw [if_neg hlt]
    by_cases hgt : a - (⌊a⌋ : Rat) > 1/2
    · rw [if_pos hgt, hcast, abs_of_nonneg (by linarith)]
      linarith
    · rw [if_neg hgt]
      have heq : a - (⌊a⌋ : Rat) = 1/2 := le_antisymm (not_lt.mp hgt) (not_lt.mp hlt)
      by_cases hpar : ⌊a⌋ % 2 = 0
      · rw [if_pos hpar, abs_sub_comm, abs_of_nonneg (by linarith)]
        linarith
      · rw [if_neg hpar, hcast, abs_of_nonneg (by linarith)]
        linarith

/-- After `round(x, 3)` the value has at most three decimal digits: scaled by
1000 it is an integer. -/
theorem py_round_3_den (a : Rat) : (py_round_3 a * 1000).den = 1 := by
  unfold py_round_3
  rw [div_mul_cancel₀ _ (by norm_num : (1000 : Rat) ≠ 0)]
  exact Rat.den_intCast _

/-- Rounding to three decimal digits moves the value by at most 1/2000: the
emitted value is a genuine rounding, not the raw value and not a truncation
further away than half of the last kept digit. -/
theorem abs_py_round_3_sub_le (a : Rat) : |py_round_3 a - a| ≤ 1/2000 := by
  have h := abs_py_round_sub_le_half (a * 1000)
  unfold py_round_3
  have hrw : ((py_round (a * 1000) : Int) : Rat) / 1000 - a =
      (((py_round (a * 1000) : Int) : Rat) - a * 1000) / 1000 := by
    ring
  rw [hrw, abs_div, abs_of_pos (by norm_num : (0 : Rat) < 1000)]
  linarith

/-- C7: every emitted Result goes through `_notify_new_information`; a
mathematically integral average (denominator 1) is emitted as that integer
value, and any other average is emitted as `round(x, 3)` — a value with at
most three decimal digits, within 1/2000 of the computed average, never the
raw value (which has a denominator not dividing 1000) untouched. -/
theorem c7_average_formatting (d : Int) (a : Rat) :
    (a.den = 1 → notify_new_information d a = ⟨d, a⟩) ∧
    (a.den ≠ 1 →
      notify_new_information d a = ⟨d, py_round_3 a⟩ ∧
      ((notify_new_information d a).average_delivery_time * 1000).den = 1 ∧
      |(notify_new_information d a).average_delivery_time - a| ≤ 1/2000) := by
  constructor
  · exact notify_new_information_of_den_eq_one d a
  · intro h
    have hint : ¬ (is_integer a = true) :=
      fun ht => h ((is_integer_eq_true_iff a).mp ht)
    have hnot : notify_new_information d a = ⟨d, py_round_3 a⟩ := by
      simp [notify_new_information, hint]
    refine ⟨hnot, ?_, ?_⟩
    · rw [hnot]
      exact py_round_3_den a
    · rw [hnot]
      exact abs_py_round_3_sub_le a

/-- Witness for C7: the integral average 20 is emitted as itself, and the
non-integral average 1/2 is emitted as its 3-digit rounding. -/
theorem c7_average_formatting_witness :
    ((20 : Rat).den = 1 ∧ notify_new_information 4 20 = ⟨4, 20⟩) ∧
    (((1 : Rat)/2).den ≠ 1 ∧ notify_new_information 3 (1/2) = ⟨3, py_round_3 (1/2)⟩) := by
  refine ⟨⟨?_, ?_⟩, ?_, ?_⟩
  · with_unfolding_all decide
  · exact (c7_average_formatting 4 20).1 (by with_unfolding_all decide)
  · with_unfolding_all decide
  · exact ((c7_average_formatting 3 (1/2)).2 (by with_unfolding_all decide)).1

/-- A natural-valued average is emitted unchanged by the formatting step. -/
theorem notify_new_information_natCast (d : Int) (n : Nat) :
    notify_new_information d ((n : Nat) : Rat) = ⟨d, (n : Rat)⟩ :=
  notify_new_information_of_den_eq_one d _ (Rat.den_natCast n)

/-- C8: for an input consisting of exactly one event with timestamp `t` and
duration `d` (and a positive window size, validated before the engine
starts), the engine emits exactly two Results: the minute before
`ceilToMinute t` with average 0, then, on the final flush, `ceilToMinute t`
itself with average exactly `d`. -/
theorem c8_single_event_two_results (w : Nat) (t : PyDateTime) (d : Nat)
    (hw : 1 ≤ w) :
    event_processor w [⟨t, d⟩] =
      some [⟨(get_next_minute_of_datetime t).minuteIdx - 1, 0⟩,
        ⟨(get_next_minute_of_datetime t).minuteIdx, (d : Rat)⟩] := by
  obtain ⟨w', rfl⟩ : ∃ w', w = w' + 1 := ⟨w - 1, by omega⟩
  have h0 : notify_new_information ((get_next_minute_of_datetime t).minuteIdx - 1) 0 =
      ⟨(get_next_minute_of_datetime t).minuteIdx - 1, 0⟩ := by
    have := notify_new_information_natCast ((get_next_minute_of_datetime t).minuteIdx - 1) 0
    simpa using this
  have hd : notify_new_information ((get_next_minute_of_datetime t).minuteIdx) ((d : Nat) : Rat) =
      ⟨(get_next_minute_of_datetime t).minuteIdx, (d : Rat)⟩ :=
    notify_new_information_natCast _ d
  simp [event_processor, process_events, process_event, on_first_event,
    get_average_delivery_time_from_chronology, get_average_delivery_time,
    h0, hd, div_one]

/-- Witness for C8 at window size 10, timestamp with minute index 100 and
second 30, duration 7. -/
theorem c8_single_event_two_results_witness :
    1 ≤ 10 ∧ event_processor 10 [⟨⟨100, 30, 0⟩, 7⟩] =
      some [⟨100, 0⟩, ⟨101, (7 : Rat)⟩] := by
  refine ⟨by decide, ?_⟩
  have h := c8_single_event_two_results 10 ⟨100, 30, 0⟩ 7 (by decide)
  simpa [get_next_minute_of_datetime] using h

/-- Relational presentation of the processing loop of `event_processor`,
reading events from the incoming channel one at a time: an outcome is `none`
when a fault kills the engine mid-loop, or `some (final chronology, ordered
emissions)` when the end-of-stream marker is reached.  Determinism of the
engine is the statement that all derivations from the same input agree. -/
inductive LoopRun (w : Nat) :
    List MinuteInfo → List Event → Option (List MinuteInfo × List OutputInfo) → Prop where
  | eof (c : List MinuteInfo) : LoopRun w c [] (some (c, []))
  | fault (c : List MinuteInfo) (e : Event) (es : List Event) :
      process_event w c e = none → LoopRun w c (e :: es) none
  | laterFault (c c' : List MinuteInfo) (e : Event) (es : List Event)
      (out : List OutputInfo) :
      process_event w c e = some (c', out) → LoopRun w c' es none →
      LoopRun w c (e :: es) none
  | step (c c' c'' : List MinuteInfo) (e : Event) (es : List Event)
      (out out' : List OutputInfo) :
      process_event w c e = some (c', out) → LoopRun w c' es (some (c'', out')) →
      LoopRun w c (e :: es) (some (c'', out ++ out'))

/-- Relational presentation of the whole engine: the loop from the empty
chronology followed by the final flush (which dies on a division fault or on
the empty chronology, and otherwise emits the head minute). -/
inductive EngineRun (w : Nat) (events : List Event) : Option (List OutputInfo) → Prop where
  | loopFault : LoopRun w [] events none → EngineRun w events none
  | flushFault (c : List MinuteInfo) (out : List OutputInfo) :
      LoopRun w [] events (some (c, out)) →
      get_average_delivery_time_from_chronology c w = none →
      EngineRun w events none
  | flushEmpty (out : List OutputInfo) (a : Rat) :
      LoopRun w [] events (some ([], out)) →
      get_average_delivery_time_from_chronology [] w = some a →
      EngineRun w events none
  | flushEmit (current : MinuteInfo) (rest : List MinuteInfo)
      (out : List OutputInfo) (a : Rat) :
      LoopRun w [] events (some (current :: rest, out)) →
      get_average_delivery_time_from_chronology (current :: rest) w = some a →
      EngineRun w events (some (out ++ [notify_new_information current.date a]))

/-- The loop relation is deterministic: two derivations from the same
chronology and input agree on the outcome. -/
theorem loopRun_deterministic {w : Nat} {c : List MinuteInfo} {events : List Event}
    {o₁ o₂ : Option (List MinuteInfo × List OutputInfo)}
    (h₁ : LoopRun w c events o₁) (h₂ : LoopRun w c events o₂) : o₁ = o₂ := by
  induction h₁ generalizing o₂ with
  | eof c =>
    cases h₂
    rfl
  | fault c e es hpe =>
    cases h₂ with
    | fault _ _ _ _ => rfl
    | laterFault _ c₂ _ _ out₂ hpe₂ hrest₂ => rfl
    | step _ c₂ c₂' _ _ out₂ out₂' hpe₂ hrest₂ =>
      simp [hpe] at hpe₂
  | laterFault c c' e es out hpe hrest ih =>
    cases h₂ with
    | fault _ _ _ hpe₂ =>
      simp [hpe] at hpe₂
    | laterFault _ c₂ _ _ out₂ hpe₂ hrest₂ => rfl
    | step _ c₂ c₂' _ _ out₂ out₂' hpe₂ hrest₂ =>
      rw [hpe] at hpe₂
      simp only [Option.some.injEq, Prod.mk.injEq] at hpe₂
      obtain ⟨h1, h2⟩ := hpe₂
      subst h1
      exact Option.noConfusion (ih hrest₂)
  | step c c' c'' e es out out' hpe hrest ih =>
    cases h₂ with
    | fault _ _ _ hpe₂ =>
      simp [hpe] at hpe₂
    | laterFault _ c₂ _ _ out₂ hpe₂ hrest₂ =>
      rw [hpe] at hpe₂
      simp only [Option.some.injEq, Prod.mk.injEq] at hpe₂
      obtain ⟨h1, h2⟩ := hpe₂
      subst h1
      exact Option.noConfusion (ih hrest₂)
    | step _ c₂ c₂' _ _ out₂ out₂' hpe₂ hrest₂ =>
      rw [hpe] at hpe₂
      simp only [Option.some.injEq, Prod.mk.injEq] at hpe₂
      obtain ⟨h1, h2⟩ := hpe₂
      subst h1
      subst h2
      have := ih hrest₂
      simp only [Option.some.injEq, Prod.mk.injEq] at this
      obtain ⟨h3, h4⟩ := this
      subst h3
      subst h4
      rfl

/-- The loop relation holds of the functional embedding (totality of the
relation on every input). -/
theorem loopRun_process_events (w : Nat) (c : List MinuteInfo) (es : List Event) :
    LoopRun w c es (process_events w c es) := by
  induction es generalizing c with
  | nil => exact LoopRun.eof c
  | cons e es ih =>
    cases hpe : process_event w c e with
    | none =>
      simpa [process_events, hpe] using LoopRun.fault c e es hpe
    | some p =>
      obtain ⟨c', out⟩ := p
      cases hrest : process_events w c' es with
      | none =>
        have hl := ih c'
        rw [hrest] at hl
        simpa [process_events, hpe, hrest] using LoopRun.laterFault c c' e es out hpe hl
      | some q =>
        obtain ⟨c'', out'⟩ := q
        have hl := ih c'
        rw [hrest] at hl
        simpa [process_events, hpe, hrest] using
          LoopRun.step c c' c'' e es out out' hpe hl

/-- The engine relation holds of the functional embedding. -/
theorem engineRun_event_processor (w : Nat) (events : List Event) :
    EngineRun w events (event_processor w events) := by
  have hl := loopRun_process_events w [] events
  cases hpe : process_events w [] events with
  | none =>
    rw [hpe] at hl
    simpa [event_processor, hpe] using EngineRun.loopFault hl
  | some p =>
    obtain ⟨c, out⟩ := p
    rw [hpe] at hl
    cases havg : get_average_delivery_time_from_chronology c w with
    | none =>
      simpa [event_processor, hpe, havg] using EngineRun.flushFault c out hl havg
    | some a =>
      cases c with
      | nil =>
        simpa [event_processor, hpe, havg] using EngineRun.flushEmpty out a hl havg
      | cons current rest =>
        simpa [event_processor, hpe, havg] using
          EngineRun.flushEmit current rest out a hl havg

/-- C9: the engine is deterministic — any two complete runs over the same
window size and the same input event sequence produce the same outcome, hence
identical Result sequences; the engine state is only the chronology built
from the input, with no hidden time-varying state. -/
theorem c9_engine_deterministic (w : Nat) (events : List Event)
    (o₁ o₂ : Option (List OutputInfo))
    (h₁ : EngineRun w events o₁) (h₂ : EngineRun w events o₂) : o₁ = o₂ := by
  cases h₁ with
  | loopFault hl₁ =>
    cases h₂ with
    | loopFault hl₂ => rfl
    | flushFault c out hl₂ havg₂ => rfl
    | flushEmpty out a hl₂ havg₂ => rfl
    | flushEmit current rest out a hl₂ havg₂ =>
      exact Option.noConfusion (loopRun_deterministic hl₁ hl₂)
  | flushFault c out hl₁ havg₁ =>
    cases h₂ with
    | loopFault hl₂ => rfl
    | flushFault c₂ out₂ hl₂ havg₂ => rfl
    | flushEmpty out₂ a₂ hl₂ havg₂ => rfl
    | flushEmit current rest out₂ a₂ hl₂ havg₂ =>
      have h := loopRun_deterministic hl₁ hl₂
      simp only [Option.some.injEq, Prod.mk.injEq] at h
      obtain ⟨h1, h2⟩ := h
      subst h1
      rw [havg₁] at havg₂
      exact Option.noConfusion havg₂
  | flushEmpty out a hl₁ havg₁ =>
    cases h₂ with
    | loopFault hl₂ => rfl
    | flushFault c₂ out₂ hl₂ havg₂ => rfl
    | flushEmpty out₂ a₂ hl₂ havg₂ => rfl
    | flushEmit current rest out₂ a₂ hl₂ havg₂ =>
      have h := loopRun_deterministic hl₁ hl₂
      simp only [Option.some.injEq, Prod.mk.injEq] at h
      exact absurd h.1 (by simp)
  | flushEmit current rest out a hl₁ havg₁ =>
    cases h₂ with
    | loopFault hl₂ =>
      exact Option.noConfusion (loopRun_deterministic hl₂ hl₁)
    | flushFault c₂ out₂ hl₂ havg₂ =>
      have h := loopRun_deterministic hl₁ hl₂
      simp only [Option.some.injEq, Prod.mk.injEq] at h
      obtain ⟨h1, h2⟩ := h
      subst h1
      rw [havg₁] at havg₂
      exact Option.noConfusion havg₂
    | flushEmpty out₂ a₂ hl₂ havg₂ =>
      have h := loopRun_deterministic hl₁ hl₂
      simp only [Option.some.injEq, Prod.mk.injEq] at h
      exact absurd h.1 (by simp)
    | flushEmit current₂ rest₂ out₂ a₂ hl₂ havg₂ =>
      have h := loopRun_deterministic hl₁ hl₂
      simp only [Option.some.injEq, Prod.mk.injEq, List.cons.injEq] at h
      obtain ⟨⟨h1, h2⟩, h3⟩ := h
      subst h1
      subst h2
      subst h3
      rw [havg₁] at havg₂
      simp only [Option.some.injEq] at havg₂
      subst havg₂
      rfl

/-- Witness for C9: two runs of the engine on the same concrete input (window
size 10, one event) have the same outcome. -/
theorem c9_engine_deterministic_witness :
    event_processor 10 [⟨⟨0, 30, 0⟩, 5⟩] = event_processor 10 [⟨⟨0, 30, 0⟩, 5⟩] :=
  c9_engine_deterministic 10 [⟨⟨0, 30, 0⟩, 5⟩] _ _
    (engineRun_event_processor 10 [⟨⟨0, 30, 0⟩, 5⟩])
    (engineRun_event_processor 10 [⟨⟨0, 30, 0⟩, 5⟩])

/-- For C10 (refinement): the first-event handling described by the
specification, which additionally stores the synthetic empty bucket
(count 0, total 0) for the minute before the first event under the real
head bucket.  The code's `on_first_event` emits the Result for that minute
but never stores the bucket.  The emission is the same. -/
def on_first_event_with_synthetic_bucket (current_chronology : List MinuteInfo)
    (next_minute : Int) (delivery_time : Nat) : List MinuteInfo × List OutputInfo :=
  ({ date := next_minute, number_of_events := 1, total_delivery_time := delivery_time }
      :: { date := next_minute - 1, number_of_events := 0, total_delivery_time := 0 }
      :: current_chronology,
    [notify_new_information (next_minute - 1) 0])

/-- C10 variant of `process_event`: identical dispatch, except that the
first-event case also stores the synthetic empty bucket. -/
def process_event_with_synthetic_bucket (window_size : Nat)
    (chronology : List MinuteInfo) (e : Event) :
    Option (List MinuteInfo × List OutputInfo) :=
  let timestamp_next_minute : Int := (get_next_minute_of_datetime e.timestamp).minuteIdx
  match chronology with
  | [] =>
    some (on_first_event_with_synthetic_bucket chronology timestamp_next_minute
      e.delivery_time)
  | current :: _ =>
    if timestamp_next_minute = current.date then
      some (on_event_for_same_minute chronology e.delivery_time, [])
    else if timestamp_next_minute - current.date = 1 then
      on_event_for_new_consecutive_minute chronology timestamp_next_minute
        e.delivery_time window_size
    else if timestamp_next_minute - current.date > 1 then
      on_event_for_new_non_consecutive_minute chronology timestamp_next_minute
        e.delivery_time window_size
    else
      some (chronology, [])

/-- C10 variant of the processing loop. -/
def process_events_with_synthetic_bucket (window_size : Nat)
    (chronology : List MinuteInfo) :
    List Event → Option (List MinuteInfo × List OutputInfo)
  | [] => some (chronology, [])
  | e :: es =>
    match process_event_with_synthetic_bucket window_size chronology e with
    | none => none
    | some (chronology', outputs) =>
      match process_events_with_synthetic_bucket window_size chronology' es with
      | none => none
      | some (final_chronology, outputs') =>
        some (final_chronology, outputs ++ outputs')

/-- C10 variant of the whole engine. -/
def event_processor_with_synthetic_bucket (window_size : Nat)
    (events : List Event) : Option (List OutputInfo) :=
  match process_events_with_synthetic_bucket window_size [] events with
  | none => none
  | some (chronology, outputs) =>
    match get_average_delivery_time_from_chronology chronology window_size with
    | none => none
    | some final_average_delivery_time =>
      match chronology with
      | [] => none
      | current :: _ =>
        some (outputs ++
          [notify_new_information current.date final_average_delivery_time])

/-- Simulation invariant for C10: the variant's chronology either equals the
code's, or carries exactly one extra tail bucket that is either empty
(contributing nothing to any window sum) or lies entirely beyond the first
`window_size` entries. -/
def chron_rel (w : Nat) (c₁ c₂ : List MinuteInfo) : Prop :=
  c₂ = c₁ ∨ ∃ ex, c₂ = c₁ ++ [ex] ∧ c₁ ≠ [] ∧
    ((ex.number_of_events = 0 ∧ ex.total_delivery_time = 0) ∨ w ≤ c₁.length)

/-- Under the simulation invariant the two chronologies have the same window
average: the extra bucket is either empty or outside the window prefix. -/
theorem chron_rel_average (w : Nat) {c₁ c₂ : List MinuteInfo}
    (h : chron_rel w c₁ c₂) :
    get_average_delivery_time_from_chronology c₂ w =
      get_average_delivery_time_from_chronology c₁ w := by
  rcases h with rfl | ⟨ex, rfl, hne, hcond⟩
  · rfl
  · have hne₂ : c₁ ++ [ex] ≠ [] := by simp
    unfold get_average_delivery_time_from_chronology
    rw [if_neg hne₂, if_neg hne]
    have hsum : ∀ f : MinuteInfo → Nat, f ex = 0 ∨ w ≤ c₁.length →
        (((c₁ ++ [ex]).take w).map f).sum = ((c₁.take w).map f).sum := by
      intro f hf
      rcases hf with hf0 | hw
      · rw [List.take_append_eq_append_take, List.map_append, List.sum_append]
        have hz : ((List.take (w - c₁.length) [ex]).map f).sum = 0 := by
          rcases Nat.eq_zero_or_pos (w - c₁.length) with h0 | hpos
          · rw [h0]
            simp
          · have ht : List.take (w - c₁.length) [ex] = [ex] :=
              List.take_of_length_le (by simp only [List.length_cons, List.length_nil]; omega)
            rw [ht]
            simp [hf0]
        rw [hz, Nat.add_zero]
      · rw [List.take_append_of_le_length hw]
    rcases hcond with ⟨h0, h1⟩ | hw
    · rw [hsum MinuteInfo.number_of_events (Or.inl h0),
        hsum MinuteInfo.total_delivery_time (Or.inl h1)]
    · rw [hsum MinuteInfo.number_of_events (Or.inr hw),
        hsum MinuteInfo.total_delivery_time (Or.inr hw)]

/-- Inserting the same new head on both sides preserves the invariant. -/
theorem chron_rel_cons (w : Nat) (b : MinuteInfo) {c₁ c₂ : List MinuteInfo}
    (h : chron_rel w c₁ c₂) : chron_rel w (b :: c₁) (b :: c₂) := by
  rcases h with rfl | ⟨ex, rfl, hne, hcond⟩
  · exact Or.inl rfl
  · refine Or.inr ⟨ex, by simp, by simp, ?_⟩
    rcases hcond with h0 | hw
    · exact Or.inl h0
    · refine Or.inr ?_
      simp only [List.length_cons]
      omega

/-- Trimming both sides preserves the invariant (for a positive window: the
engine only reaches a trim after an average computation succeeded, which
forces the window size to be positive). -/
theorem chron_rel_trim (w : Nat) (hw : 1 ≤ w) {c₁ c₂ : List MinuteInfo}
    (h : chron_rel w c₁ c₂) :
    chron_rel w (trim_chronology w c₁) (trim_chronology w c₂) := by
  rcases h with rfl | ⟨ex, rfl, hne, hcond⟩
  · exact Or.inl rfl
  · unfold trim_chronology
    have hlen : (c₁ ++ [ex]).length = c₁.length + 1 := by simp
    by_cases h1 : c₁.length > w
    · rw [if_pos h1, if_pos (by omega : (c₁ ++ [ex]).length > w),
        List.dropLast_concat]
      refine Or.inr ⟨c₁.getLast hne, (List.dropLast_append_getLast hne).symm,
        ?_, Or.inr ?_⟩
      · rw [← List.length_pos, List.length_dropLast]
        omega
      · rw [List.length_dropLast]
        omega
    · by_cases h2 : (c₁ ++ [ex]).length > w
      · rw [if_neg h1, if_pos h2, List.dropLast_concat]
        exact Or.inl rfl
      · rw [if_neg h1, if_neg h2]
        exact Or.inr ⟨ex, rfl, hne, hcond⟩

/-- Updating the shared head in place preserves the invariant. -/
theorem chron_rel_same_minute (w : Nat) (d : Nat) {c₁ c₂ : List MinuteInfo}
    (h : chron_rel w c₁ c₂) :
    chron_rel w (on_event_for_same_minute c₁ d) (on_event_for_same_minute c₂ d) := by
  rcases h with rfl | ⟨ex, rfl, hne, hcond⟩
  · exact Or.inl rfl
  · obtain ⟨x, t, rfl⟩ : ∃ x t, c₁ = x :: t := by
      cases c₁ with
      | nil => exact absurd rfl hne
      | cons x t => exact ⟨x, t, rfl⟩
    simp only [List.cons_append, on_event_for_same_minute]
    refine Or.inr ⟨ex, rfl, by simp, ?_⟩
    rcases hcond with h0 | hw
    · exact Or.inl h0
    · refine Or.inr ?_
      simpa using hw

/-- A successful average computation over a non-empty chronology forces the
window size to be positive (a zero window sums nothing and divides by 0). -/
theorem window_size_pos_of_average_some {c : List MinuteInfo} {w : Nat} {a : Rat}
    (hc : c ≠ []) (h : get_average_delivery_time_from_chronology c w = some a) :
    1 ≤ w := by
  by_contra hw
  have hw0 : w = 0 := by omega
  subst hw0
  unfold get_average_delivery_time_from_chronology at h
  rw [if_neg hc] at h
  simp [get_average_delivery_time] at h

/-- The gap-filling loop preserves the invariant and emits identically on
both sides (faulting together when a window of only empty minutes arises). -/
theorem insert_empty_minutes_rel (w : Nat) (cur : Int) :
    ∀ (remaining i : Nat) {c₁ c₂ : List MinuteInfo}, chron_rel w c₁ c₂ →
    (insert_empty_minutes w cur i remaining c₁ = none ∧
      insert_empty_minutes w cur i remaining c₂ = none) ∨
    (∃ c₁' c₂' out,
      insert_empty_minutes w cur i remaining c₁ = some (c₁', out) ∧
      insert_empty_minutes w cur i remaining c₂ = some (c₂', out) ∧
      chron_rel w c₁' c₂') := by
  intro remaining
  induction remaining with
  | zero =>
    intro i c₁ c₂ h
    exact Or.inr ⟨c₁, c₂, [], rfl, rfl, h⟩
  | succ r ih =>
    intro i c₁ c₂ h
    have hrel1 : chron_rel w ((⟨cur + i, 0, 0⟩ : MinuteInfo) :: c₁)
        ((⟨cur + i, 0, 0⟩ : MinuteInfo) :: c₂) := chron_rel_cons w _ h
    have havg := chron_rel_average w hrel1
    cases havg1 : get_average_delivery_time_from_chronology
        ((⟨cur + i, 0, 0⟩ : MinuteInfo) :: c₁) w with
    | none =>
      rw [havg1] at havg
      refine Or.inl ⟨?_, ?_⟩
      · simp only [insert_empty_minutes]
        rw [havg1]
      · simp only [insert_empty_minutes]
        rw [havg]
    | some a =>
      rw [havg1] at havg
      have hwpos : 1 ≤ w :=
        window_size_pos_of_average_some (List.cons_ne_nil _ _) havg1
      have hrel2 := chron_rel_trim w hwpos hrel1
      rcases ih (i + 1) hrel2 with ⟨hn1, hn2⟩ | ⟨c₁', c₂', out, hs1, hs2, hrel3⟩
      · refine Or.inl ⟨?_, ?_⟩
        · simp only [insert_empty_minutes]
          rw [havg1, hn1]
        · simp only [insert_empty_minutes]
          rw [havg, hn2]
      · refine Or.inr
          ⟨c₁', c₂', notify_new_information (cur + i) a :: out, ?_, ?_, hrel3⟩
        · simp only [insert_empty_minutes]
          rw [havg1, hs1]
        · simp only [insert_empty_minutes]
          rw [havg, hs2]

/-- On a non-empty chronology the variant dispatcher coincides with the
code's dispatcher (they differ only in the first-event case). -/
theorem process_event_synthetic_eq_cons (w : Nat) (e : Event) (x : MinuteInfo)
    (t : List MinuteInfo) :
    process_event_with_synthetic_bucket w (x :: t) e = process_event w (x :: t) e :=
  rfl

/-- The consecutive-minute handler preserves the invariant and emits
identically on both sides. -/
theorem consecutive_rel (w : Nat) (nm : Int) (d : Nat) {c₁ c₂ : List MinuteInfo}
    (h : chron_rel w c₁ c₂) (hne : c₁ ≠ []) :
    (on_event_for_new_consecutive_minute c₁ nm d w = none ∧
      on_event_for_new_consecutive_minute c₂ nm d w = none) ∨
    (∃ c₁' c₂' out, on_event_for_new_consecutive_minute c₁ nm d w = some (c₁', out) ∧
      on_event_for_new_consecutive_minute c₂ nm d w = some (c₂', out) ∧
      chron_rel w c₁' c₂') := by
  obtain ⟨x, t, rfl⟩ : ∃ x t, c₁ = x :: t := by
    cases c₁ with
    | nil => exact absurd rfl hne
    | cons x t => exact ⟨x, t, rfl⟩
  have h' := h
  rcases h with rfl | ⟨ex, rfl, -, hcond⟩
  · cases hv : on_event_for_new_consecutive_minute (x :: t) nm d w with
    | none => exact Or.inl ⟨rfl, rfl⟩
    | some p =>
      obtain ⟨c', out⟩ := p
      exact Or.inr ⟨c', c', out, rfl, rfl, Or.inl rfl⟩
  · have havg := chron_rel_average w h'
    simp only [List.cons_append] at havg ⊢
    cases havg1 : get_average_delivery_time_from_chronology (x :: t) w with
    | none =>
      rw [havg1] at havg
      refine Or.inl ⟨?_, ?_⟩
      · simp only [on_event_for_new_consecutive_minute]
        rw [havg1]
      · simp only [on_event_for_new_consecutive_minute]
        rw [havg]
    | some a =>
      rw [havg1] at havg
      have hwpos : 1 ≤ w :=
        window_size_pos_of_average_some (List.cons_ne_nil _ _) havg1
      refine Or.inr
        ⟨trim_chronology w
            ({ date := nm, number_of_events := 1, total_delivery_time := d } :: x :: t),
          trim_chronology w
            ({ date := nm, number_of_events := 1, total_delivery_time := d }
              :: x :: (t ++ [ex])),
          [notify_new_information x.date a], ?_, ?_, ?_⟩
      · simp only [on_event_for_new_consecutive_minute]
        rw [havg1]
      · simp only [on_event_for_new_consecutive_minute]
        rw [havg]
      · have hc := chron_rel_trim w hwpos
          (chron_rel_cons w ⟨nm, 1, d⟩ h')
        simpa [List.cons_append] using hc

/-- The non-consecutive-minute handler (head emission, gap filling, final
insertion) preserves the invariant and emits identically on both sides. -/
theorem non_consecutive_rel (w : Nat) (nm : Int) (d : Nat) {c₁ c₂ : List MinuteInfo}
    (h : chron_rel w c₁ c₂) (hne : c₁ ≠ []) :
    (on_event_for_new_non_consecutive_minute c₁ nm d w = none ∧
      on_event_for_new_non_consecutive_minute c₂ nm d w = none) ∨
    (∃ c₁' c₂' out,
      on_event_for_new_non_consecutive_minute c₁ nm d w = some (c₁', out) ∧
      on_event_for_new_non_consecutive_minute c₂ nm d w = some (c₂', out) ∧
      chron_rel w c₁' c₂') := by
  obtain ⟨x, t, rfl⟩ : ∃ x t, c₁ = x :: t := by
    cases c₁ with
    | nil => exact absurd rfl hne
    | cons x t => exact ⟨x, t, rfl⟩
  have h' := h
  rcases h with rfl | ⟨ex, rfl, -, hcond⟩
  · cases hv : on_event_for_new_non_consecutive_minute (x :: t) nm d w with
    | none => exact Or.inl ⟨rfl, rfl⟩
    | some p =>
      obtain ⟨c', out⟩ := p
      exact Or.inr ⟨c', c', out, rfl, rfl, Or.inl rfl⟩
  · have havg := chron_rel_average w h'
    simp only [List.cons_append] at havg ⊢
    cases havg1 : get_average_delivery_time_from_chronology (x :: t) w with
    | none =>
      rw [havg1] at havg
      refine Or.inl ⟨?_, ?_⟩
      · simp only [on_event_for_new_non_consecutive_minute]
        rw [havg1]
      · simp only [on_event_for_new_non_consecutive_minute]
        rw [havg]
    | some a =>
      rw [havg1] at havg
      have hwpos : 1 ≤ w :=
        window_size_pos_of_average_some (List.cons_ne_nil _ _) havg1
      have hloop := insert_empty_minutes_rel w x.date
        ((nm - x.date).toNat * 60 % 86400 / 60 - 1) 1 h'
      simp only [List.cons_append] at hloop
      rcases hloop with ⟨hn1, hn2⟩ | ⟨f₁, f₂, outs, hs1, hs2, hrel3⟩
      · refine Or.inl ⟨?_, ?_⟩
        · simp only [on_event_for_new_non_consecutive_minute]
          rw [havg1, hn1]
        · simp only [on_event_for_new_non_consecutive_minute]
          rw [havg, hn2]
      · refine Or.inr
          ⟨trim_chronology w
              ({ date := nm, number_of_events := 1, total_delivery_time := d } :: f₁),
            trim_chronology w
              ({ date := nm, number_of_events := 1, total_delivery_time := d } :: f₂),
            notify_new_information x.date a :: outs, ?_, ?_, ?_⟩
        · simp only [on_event_for_new_non_consecutive_minute]
          rw [havg1, hs1]
        · simp only [on_event_for_new_non_consecutive_minute]
          rw [havg, hs2]
        · exact chron_rel_trim w hwpos (chron_rel_cons w ⟨nm, 1, d⟩ hrel3)

/-- One dispatch step preserves the invariant and emits identically on both
sides; the first event establishes the invariant by storing (variant) or not
storing (code) the synthetic empty bucket. -/
theorem process_event_rel (w : Nat) (e : Event) {c₁ c₂ : List MinuteInfo}
    (h : chron_rel w c₁ c₂) :
    (process_event w c₁ e = none ∧
      process_event_with_synthetic_bucket w c₂ e = none) ∨
    (∃ c₁' c₂' out, process_event w c₁ e = some (c₁', out) ∧
      process_event_with_synthetic_bucket w c₂ e = some (c₂', out) ∧
      chron_rel w c₁' c₂') := by
  cases c₁ with
  | nil =>
    have hc2 : c₂ = [] := by
      rcases h with rfl | ⟨ex, heq, hne, -⟩
      · rfl
      · exact absurd rfl hne
    subst hc2
    refine Or.inr
      ⟨[⟨(get_next_minute_of_datetime e.timestamp).minuteIdx, 1, e.delivery_time⟩],
        [⟨(get_next_minute_of_datetime e.timestamp).minuteIdx, 1, e.delivery_time⟩,
          ⟨(get_next_minute_of_datetime e.timestamp).minuteIdx - 1, 0, 0⟩],
        [notify_new_information
          ((get_next_minute_of_datetime e.timestamp).minuteIdx - 1) 0],
        rfl, rfl, ?_⟩
    exact Or.inr ⟨⟨(get_next_minute_of_datetime e.timestamp).minuteIdx - 1, 0, 0⟩,
      rfl, by simp, Or.inl ⟨rfl, rfl⟩⟩
  | cons x t =>
    have hne : (x :: t : List MinuteInfo) ≠ [] := by simp
    obtain ⟨t₂, rfl⟩ : ∃ t₂, c₂ = x :: t₂ := by
      rcases h with rfl | ⟨ex, rfl, -, -⟩
      · exact ⟨t, rfl⟩
      · exact ⟨t ++ [ex], by simp⟩
    simp only [process_event, process_event_with_synthetic_bucket]
    by_cases hsame : (get_next_minute_of_datetime e.timestamp).minuteIdx = x.date
    · rw [if_pos hsame, if_pos hsame]
      exact Or.inr ⟨on_event_for_same_minute (x :: t) e.delivery_time,
        on_event_for_same_minute (x :: t₂) e.delivery_time, [], rfl, rfl,
        chron_rel_same_minute w e.delivery_time h⟩
    · rw [if_neg hsame, if_neg hsame]
      by_cases hcons : (get_next_minute_of_datetime e.timestamp).minuteIdx - x.date = 1
      · rw [if_pos hcons, if_pos hcons]
        exact consecutive_rel w _ e.delivery_time h hne
      · rw [if_neg hcons, if_neg hcons]
        by_cases hgt : (get_next_minute_of_datetime e.timestamp).minuteIdx - x.date > 1
        · rw [if_pos hgt, if_pos hgt]
          exact non_consecutive_rel w _ e.delivery_time h hne
        · rw [if_neg hgt, if_neg hgt]
          exact Or.inr ⟨x :: t, x :: t₂, [], rfl, rfl, h⟩

/-- The whole processing loop preserves the invariant and emits identically
on both sides. -/
theorem process_events_rel (w : Nat) (es : List Event) :
    ∀ {c₁ c₂ : List MinuteInfo}, chron_rel w c₁ c₂ →
    (process_events w c₁ es = none ∧
      process_events_with_synthetic_bucket w c₂ es = none) ∨
    (∃ c₁' c₂' out, process_events w c₁ es = some (c₁', out) ∧
      process_events_with_synthetic_bucket w c₂ es = some (c₂', out) ∧
      chron_rel w c₁' c₂') := by
  induction es with
  | nil =>
    intro c₁ c₂ h
    exact Or.inr ⟨c₁, c₂, [], rfl, rfl, h⟩
  | cons e es ih =>
    intro c₁ c₂ h
    rcases process_event_rel w e h with ⟨hn1, hn2⟩ | ⟨c₁', c₂', out, hs1, hs2, hrel⟩
    · refine Or.inl ⟨?_, ?_⟩
      · simp only [process_events]
        rw [hn1]
      · simp only [process_events_with_synthetic_bucket]
        rw [hn2]
    · rcases ih hrel with ⟨hm1, hm2⟩ | ⟨f₁, f₂, out', ht1, ht2, hrel2⟩
      · refine Or.inl ⟨?_, ?_⟩
        · simp only [process_events]
          simp only [hs1, hm1]
        · simp only [process_events_with_synthetic_bucket]
          simp only [hs2, hm2]
      · refine Or.inr ⟨f₁, f₂, out ++ out', ?_, ?_, hrel2⟩
        · simp only [process_events]
          simp only [hs1, ht1]
        · simp only [process_events_with_synthetic_bucket]
          simp only [hs2, ht2]

/-- C10: on every input the implemented first-event handling — which emits
the Result for the minute before the first event but never stores the
synthetic (count 0, total 0) bucket — yields exactly the same emitted outcome
as the specification's variant that additionally stores that synthetic
bucket: the empty bucket contributes nothing to any window sum, and its
occupancy of a window slot (or earlier eviction) never changes any emitted
average, any fault, or any emitted minute. -/
theorem c10_first_event_synthetic_bucket_refinement (w : Nat) (events : List Event) :
    event_processor_with_synthetic_bucket w events = event_processor w events := by
  rcases process_events_rel w events (Or.inl rfl : chron_rel w [] []) with
    ⟨hn1, hn2⟩ | ⟨c₁', c₂', out, hs1, hs2, hrel⟩
  · simp only [event_processor, event_processor_with_synthetic_bucket]
    rw [hn1, hn2]
  · have havg := chron_rel_average w hrel
    simp only [event_processor, event_processor_with_synthetic_bucket]
    simp only [hs1, hs2]
    rw [havg]
    cases havg1 : get_average_delivery_time_from_chronology c₁' w with
    | none => rfl
    | some a =>
      rcases hrel with rfl | ⟨ex, rfl, hne2, -⟩
      · rfl
      · obtain ⟨x, t, rfl⟩ : ∃ x t, c₁' = x :: t := by
          cases c₁' with
          | nil => exact absurd rfl hne2
          | cons x t => exact ⟨x, t, rfl⟩
        simp [List.cons_append]

end EventProcessor
